import Mathlib

/-!
Verification of the undo/redo command stack in `src/command-dp-example-v2.ts`.

The TypeScript code mutates JavaScript objects through references, so the
embedding carries an explicit heap: `targets` maps a target identifier to its
string-keyed fields (a missing field is `none`, i.e. JavaScript `undefined`),
and `cmds` maps a command identifier to the mutable state of a `ModifyCommand`
object (its immutable `config` plus the mutable `previousValue`, which is
`none` until the first `execute`).  The concrete command classes
(`ChangeTextCommand`, `ChangeTextColorCommand`, `ChangeFontSizeCommand`) only
fix fields of the config, so every command object is a `ModifyCommand`.  The
`Invoker` structure bundles the heap with the invoker's own fields
`executedCommands` (the history log, a list of command references) and
`currentExecutionState` (the cursor, a JavaScript number starting at `-1`,
modelled as `Int`).
-/

namespace CommandDP

/-- A JavaScript property value: `none` models `undefined`. -/
abbrev Value := Option String

/-- Reference to a mutable target object (a receiver). -/
abbrev TargetId := Nat

/-- Reference to a `ModifyCommand` object. -/
abbrev CmdId := Nat

/-- The constructor argument of `ModifyCommand`: `receiver`, `changedValue`,
`modificationType` (the name of the mutated property). -/
structure ModifyCommandConfig where
  receiver : TargetId
  changedValue : String
  modificationType : String
deriving DecidableEq

/-- The state of a `ModifyCommand` object: its config and the mutable
`previousValue` field, unset (`none`) until the first `execute`. -/
structure ModifyCommand where
  config : ModifyCommandConfig
  previousValue : Value
deriving DecidableEq

/-- The whole mutable state: the heap of targets and command objects together
with the `Invoker`'s `executedCommands` log and `currentExecutionState`
cursor. -/
structure Invoker where
  targets : TargetId → String → Value
  cmds : CmdId → ModifyCommand
  executedCommands : List CmdId
  currentExecutionState : Int

/-- `ModifyCommand.prototype.execute`: read the receiver's current property
value into `previousValue`, then write `changedValue` into the property. -/
def ModifyCommand.execute (s : Invoker) (c : CmdId) : Invoker :=
  let cmd := s.cmds c
  let prior := s.targets cmd.config.receiver cmd.config.modificationType
  { s with
    cmds := fun c' =>
      if c' = c then { cmd with previousValue := prior } else s.cmds c',
    targets := fun t k =>
      if t = cmd.config.receiver ∧ k = cmd.config.modificationType then
        some cmd.config.changedValue
      else s.targets t k }

/-- `ModifyCommand.prototype.undo`: write `previousValue` (possibly still the
unset `none`) back into the receiver's property. -/
def ModifyCommand.undo (s : Invoker) (c : CmdId) : Invoker :=
  let cmd := s.cmds c
  { s with
    targets := fun t k =>
      if t = cmd.config.receiver ∧ k = cmd.config.modificationType then
        cmd.previousValue
      else s.targets t k }

/-- `Invoker.prototype.execute`: splice away everything after the cursor when
the cursor is not at the last index, push the command, run its `execute`, and
set the cursor to the new last index. -/
def Invoker.execute (s : Invoker) (command : CmdId) : Invoker :=
  let s1 :=
    if (s.executedCommands.length : Int) - 1 > s.currentExecutionState then
      let nextCommand : Int := s.currentExecutionState + 1
      { s with executedCommands := s.executedCommands.take nextCommand.toNat }
    else s
  let s2 := { s1 with executedCommands := s1.executedCommands ++ [command] }
  let s3 := ModifyCommand.execute s2 command
  { s3 with currentExecutionState := (s3.executedCommands.length : Int) - 1 }

/-- `Invoker.prototype.undo`: when the cursor is nonnegative, call `undo` on
the command at the cursor and decrement the cursor; otherwise do nothing. -/
def Invoker.undo (s : Invoker) : Invoker :=
  if 0 ≤ s.currentExecutionState then
    let s' := { s with currentExecutionState := s.currentExecutionState - 1 }
    match s.executedCommands[s.currentExecutionState.toNat]? with
    | some c => ModifyCommand.undo s' c
    | none => s'
  else s

/-- `Invoker.prototype.redo`: when the cursor is below the last index,
increment the cursor and call `execute` on the command now at the cursor;
otherwise do nothing. -/
def Invoker.redo (s : Invoker) : Invoker :=
  if s.currentExecutionState < (s.executedCommands.length : Int) - 1 then
    let s' := { s with currentExecutionState := s.currentExecutionState + 1 }
    match s.executedCommands[(s.currentExecutionState + 1).toNat]? with
    | some c => ModifyCommand.execute s' c
    | none => s'
  else s

/-- One external trigger: an `execute(command)`, `undo()`, or `redo()` call. -/
inductive Action where
  | exec (c : CmdId)
  | undo
  | redo
deriving DecidableEq

/-- Apply a single trigger to the state. -/
def step (s : Invoker) : Action → Invoker
  | Action.exec c => Invoker.execute s c
  | Action.undo => Invoker.undo s
  | Action.redo => Invoker.redo s

/-- Run a sequence of triggers left to right. -/
def run : Invoker → List Action → Invoker
  | s, [] => s
  | s, a :: rest => run (step s a) rest

/-- A fresh invoker: empty log, cursor at `-1` (the heap is arbitrary). -/
def IsInitial (s : Invoker) : Prop :=
  s.executedCommands = [] ∧ s.currentExecutionState = -1

/-- A state the invoker can be in: some sequence of `execute`/`undo`/`redo`
calls from a fresh invoker leads to it. -/
def Reachable (s : Invoker) : Prop :=
  ∃ s0 acts, IsInitial s0 ∧ run s0 acts = s

/-- The cursor invariant of the history manager. -/
def Inv (s : Invoker) : Prop :=
  -1 ≤ s.currentExecutionState ∧
    s.currentExecutionState ≤ (s.executedCommands.length : Int) - 1

/-- A sequence of `execute` calls. -/
def executeAll : Invoker → List CmdId → Invoker
  | s, [] => s
  | s, c :: rest => executeAll (Invoker.execute s c) rest

/-- `n` consecutive `undo` calls. -/
def undoN : Nat → Invoker → Invoker
  | 0, s => s
  | n + 1, s => undoN n (Invoker.undo s)

/-- The log as left by step 1 of `Invoker.execute` (the `splice` branch). -/
def truncLog (s : Invoker) : List CmdId :=
  if (s.executedCommands.length : Int) - 1 > s.currentExecutionState then
    s.executedCommands.take (s.currentExecutionState + 1).toNat
  else s.executedCommands

theorem execute_log (s : Invoker) (c : CmdId) :
    (Invoker.execute s c).executedCommands = truncLog s ++ [c] := by
  by_cases h : (s.executedCommands.length : Int) - 1 > s.currentExecutionState <;>
    simp [Invoker.execute, truncLog, ModifyCommand.execute, h]

theorem execute_cursor (s : Invoker) (c : CmdId) :
    (Invoker.execute s c).currentExecutionState = ((truncLog s).length : Int) := by
  by_cases h : (s.executedCommands.length : Int) - 1 > s.currentExecutionState <;>
    simp [Invoker.execute, truncLog, ModifyCommand.execute, h]

theorem execute_targets (s : Invoker) (c : CmdId) :
    (Invoker.execute s c).targets = fun t k =>
      if t = (s.cmds c).config.receiver ∧ k = (s.cmds c).config.modificationType
      then some (s.cmds c).config.changedValue
      else s.targets t k := by
  by_cases h : (s.executedCommands.length : Int) - 1 > s.currentExecutionState <;>
    simp [Invoker.execute, ModifyCommand.execute, h]

theorem execute_cmds (s : Invoker) (c : CmdId) :
    (Invoker.execute s c).cmds = fun c' =>
      if c' = c then
        ⟨(s.cmds c).config,
         s.targets (s.cmds c).config.receiver (s.cmds c).config.modificationType⟩
      else s.cmds c' := by
  by_cases h : (s.executedCommands.length : Int) - 1 > s.currentExecutionState <;>
    simp [Invoker.execute, ModifyCommand.execute, h]

theorem truncLog_of_tail (s : Invoker)
    (h : s.currentExecutionState = (s.executedCommands.length : Int) - 1) :
    truncLog s = s.executedCommands := by
  unfold truncLog
  rw [if_neg (by omega)]

theorem truncLog_of_inv (s : Invoker) (h : Inv s) :
    truncLog s = s.executedCommands.take (s.currentExecutionState + 1).toNat := by
  unfold truncLog
  by_cases hg : (s.executedCommands.length : Int) - 1 > s.currentExecutionState
  · rw [if_pos hg]
  · rw [if_neg hg]
    have hc : s.currentExecutionState = (s.executedCommands.length : Int) - 1 := by
      obtain ⟨h1, h2⟩ := h
      omega
    have : (s.currentExecutionState + 1).toNat = s.executedCommands.length := by omega
    rw [this, List.take_length]

theorem undo_of_neg (s : Invoker) (h : s.currentExecutionState < 0) :
    Invoker.undo s = s := by
  unfold Invoker.undo
  rw [if_neg (by omega)]

theorem undo_eq (s : Invoker) (c : CmdId) (h0 : 0 ≤ s.currentExecutionState)
    (hc : s.executedCommands[s.currentExecutionState.toNat]? = some c) :
    Invoker.undo s =
      ModifyCommand.undo
        { s with currentExecutionState := s.currentExecutionState - 1 } c := by
  unfold Invoker.undo
  rw [if_pos h0, hc]

theorem undo_log (s : Invoker) :
    (Invoker.undo s).executedCommands = s.executedCommands := by
  by_cases h0 : 0 ≤ s.currentExecutionState
  · cases hc : s.executedCommands[s.currentExecutionState.toNat]? <;>
      simp [Invoker.undo, h0, hc, ModifyCommand.undo]
  · simp [Invoker.undo, h0]

theorem undo_cmds (s : Invoker) : (Invoker.undo s).cmds = s.cmds := by
  by_cases h0 : 0 ≤ s.currentExecutionState
  · cases hc : s.executedCommands[s.currentExecutionState.toNat]? <;>
      simp [Invoker.undo, h0, hc, ModifyCommand.undo]
  · simp [Invoker.undo, h0]

theorem undo_cursor (s : Invoker) (h0 : 0 ≤ s.currentExecutionState) :
    (Invoker.undo s).currentExecutionState = s.currentExecutionState - 1 := by
  cases hc : s.executedCommands[s.currentExecutionState.toNat]? <;>
    simp [Invoker.undo, h0, hc, ModifyCommand.undo]

theorem redo_of_tail (s : Invoker)
    (h : ¬ s.currentExecutionState < (s.executedCommands.length : Int) - 1) :
    Invoker.redo s = s := by
  unfold Invoker.redo
  rw [if_neg h]

theorem redo_eq (s : Invoker) (c : CmdId)
    (hg : s.currentExecutionState < (s.executedCommands.length : Int) - 1)
    (hc : s.executedCommands[(s.currentExecutionState + 1).toNat]? = some c) :
    Invoker.redo s =
      ModifyCommand.execute
        { s with currentExecutionState := s.currentExecutionState + 1 } c := by
  unfold Invoker.redo
  rw [if_pos hg, hc]

theorem redo_log (s : Invoker) :
    (Invoker.redo s).executedCommands = s.executedCommands := by
  by_cases hg : s.currentExecutionState < (s.executedCommands.length : Int) - 1
  · cases hc : s.executedCommands[(s.currentExecutionState + 1).toNat]? <;>
      simp [Invoker.redo, hg, hc, ModifyCommand.execute]
  · simp [Invoker.redo, hg]

theorem redo_cursor (s : Invoker)
    (hg : s.currentExecutionState < (s.executedCommands.length : Int) - 1) :
    (Invoker.redo s).currentExecutionState = s.currentExecutionState + 1 := by
  cases hc : s.executedCommands[(s.currentExecutionState + 1).toNat]? <;>
    simp [Invoker.redo, hg, hc, ModifyCommand.execute]

theorem redo_cmds_config (s : Invoker) (c : CmdId) :
    ((Invoker.redo s).cmds c).config = (s.cmds c).config := by
  by_cases hg : s.currentExecutionState < (s.executedCommands.length : Int) - 1
  · cases hc : s.executedCommands[(s.currentExecutionState + 1).toNat]? with
    | none => simp [Invoker.redo, hg, hc]
    | some d =>
      simp only [Invoker.redo, hg, if_pos, hc]
      by_cases hcd : c = d <;> simp [ModifyCommand.execute, hcd]
  · simp [Invoker.redo, hg]

theorem Inv_execute (s : Invoker) (c : CmdId) : Inv (Invoker.execute s c) := by
  unfold Inv
  rw [execute_cursor, execute_log]
  simp
  omega

theorem Inv_undo (s : Invoker) (h : Inv s) : Inv (Invoker.undo s) := by
  by_cases h0 : 0 ≤ s.currentExecutionState
  · obtain ⟨h1, h2⟩ := h
    unfold Inv
    rw [undo_cursor s h0, undo_log]
    omega
  · rw [undo_of_neg s (by omega)]
    exact h

theorem Inv_redo (s : Invoker) (h : Inv s) : Inv (Invoker.redo s) := by
  by_cases hg : s.currentExecutionState < (s.executedCommands.length : Int) - 1
  · obtain ⟨h1, h2⟩ := h
    unfold Inv
    rw [redo_cursor s hg, redo_log]
    omega
  · rw [redo_of_tail s hg]
    exact h

theorem Inv_step (s : Invoker) (a : Action) (h : Inv s) : Inv (step s a) := by
  cases a with
  | exec c => exact Inv_execute s c
  | undo => exact Inv_undo s h
  | redo => exact Inv_redo s h

theorem Inv_initial (s : Invoker) (h : IsInitial s) : Inv s := by
  obtain ⟨h1, h2⟩ := h
  unfold Inv
  rw [h1, h2]
  simp

theorem Inv_run (s : Invoker) (acts : List Action) (h : Inv s) :
    Inv (run s acts) := by
  induction acts generalizing s with
  | nil => exact h
  | cons a rest ih => exact ih (step s a) (Inv_step s a h)

theorem Inv_of_reachable (s : Invoker) (h : Reachable s) : Inv s := by
  obtain ⟨s0, acts, hi, hr⟩ := h
  rw [← hr]
  exact Inv_run s0 acts (Inv_initial s0 hi)

theorem execute_cursor_last (s : Invoker) (c : CmdId) :
    (Invoker.execute s c).currentExecutionState =
      ((Invoker.execute s c).executedCommands.length : Int) - 1 := by
  rw [execute_cursor, execute_log]
  simp

theorem executeAll_cons (s : Invoker) (c : CmdId) (cs : List CmdId) :
    executeAll s (c :: cs) = executeAll (Invoker.execute s c) cs := rfl

theorem executeAll_cmds_of_not_mem (cs : List CmdId) (s : Invoker) (c : CmdId)
    (h : c ∉ cs) : (executeAll s cs).cmds c = s.cmds c := by
  induction cs generalizing s with
  | nil => rfl
  | cons d rest ih =>
    have hcd : c ≠ d := fun he => h (he ▸ List.mem_cons_self d rest)
    have hcr : c ∉ rest := fun hm => h (List.mem_cons_of_mem d hm)
    rw [executeAll_cons, ih (Invoker.execute s d) hcr, execute_cmds]
    simp [hcd]

theorem undoN_last (n : Nat) (s : Invoker) :
    undoN (n + 1) s = Invoker.undo (undoN n s) := by
  induction n generalizing s with
  | zero => rfl
  | succ m ih =>
    rw [undoN, ih (Invoker.undo s)]
    rfl

/-- Executing pairwise-distinct commands and then undoing them all restores
every target field, leaves the two executed blocks concatenated in the log,
and puts the cursor back where it started (for a state whose cursor is at
the tail of the log). -/
theorem undo_restores (cs : List CmdId) (s : Invoker)
    (hcur : s.currentExecutionState = (s.executedCommands.length : Int) - 1)
    (hnd : cs.Nodup) :
    (undoN cs.length (executeAll s cs)).targets = s.targets ∧
    (undoN cs.length (executeAll s cs)).executedCommands
        = s.executedCommands ++ cs ∧
    (undoN cs.length (executeAll s cs)).currentExecutionState
        = s.currentExecutionState ∧
    (undoN cs.length (executeAll s cs)).cmds = (executeAll s cs).cmds := by
  induction cs generalizing s with
  | nil => simp [executeAll, undoN]
  | cons c rest ih =>
    have hcmem : c ∉ rest := (List.nodup_cons.mp hnd).1
    have hnd' : rest.Nodup := (List.nodup_cons.mp hnd).2
    have h1log : (Invoker.execute s c).executedCommands
        = s.executedCommands ++ [c] := by
      rw [execute_log, truncLog_of_tail s hcur]
    have h1cur := execute_cursor_last s c
    obtain ⟨iht, ihl, ihc, ihm⟩ := ih (Invoker.execute s c) h1cur hnd'
    rw [List.length_cons, executeAll_cons,
      undoN_last rest.length (executeAll (Invoker.execute s c) rest)]
    set s2 := undoN rest.length (executeAll (Invoker.execute s c) rest) with hs2
    have h2log : s2.executedCommands = s.executedCommands ++ c :: rest := by
      rw [ihl, h1log, List.append_assoc]
      rfl
    have h2cur : s2.currentExecutionState = (s.executedCommands.length : Int) := by
      rw [ihc, h1cur, h1log]
      simp
    have h0 : 0 ≤ s2.currentExecutionState := by
      rw [h2cur]
      positivity
    have htoNat : s2.currentExecutionState.toNat = s.executedCommands.length := by
      rw [h2cur]
      simp
    have hget : s2.executedCommands[s2.currentExecutionState.toNat]? = some c := by
      rw [htoNat, h2log, List.getElem?_append_right (le_refl _)]
      simp
    have hcmd : s2.cmds c =
        ⟨(s.cmds c).config,
         s.targets (s.cmds c).config.receiver
           (s.cmds c).config.modificationType⟩ := by
      rw [ihm, executeAll_cmds_of_not_mem rest (Invoker.execute s c) c hcmem,
        execute_cmds]
      simp
    rw [undo_eq s2 c h0 hget]
    refine ⟨?_, ?_, ?_, ?_⟩
    · funext t k
      simp only [ModifyCommand.undo, hcmd]
      by_cases htk : t = (s.cmds c).config.receiver ∧
          k = (s.cmds c).config.modificationType
      · obtain ⟨ht, hk⟩ := htk
        subst ht
        subst hk
        simp
      · simp only [htk, if_neg, if_false]
        rw [iht, execute_targets]
        simp [htk]
    · simp only [ModifyCommand.undo]
      rw [h2log]
    · simp only [ModifyCommand.undo]
      rw [h2cur, hcur]
    · simp only [ModifyCommand.undo]
      rw [ihm]

/-- After any `execute`, an `undo` followed by a `redo` restores the whole
state (log, cursor, every target field, and every command's `previousValue`)
to what it was right after the `execute`. -/
theorem redo_undo_of_tail (s1 : Invoker) (c : CmdId)
    (hcur : s1.currentExecutionState = (s1.executedCommands.length : Int) - 1)
    (hget : s1.executedCommands[s1.currentExecutionState.toNat]? = some c)
    (hval : s1.targets (s1.cmds c).config.receiver
        (s1.cmds c).config.modificationType
        = some (s1.cmds c).config.changedValue) :
    Invoker.redo (Invoker.undo s1) = s1 := by
  obtain ⟨tg, cm, lg, cu⟩ := s1
  simp only at hcur hget hval
  have hpos : 0 < lg.length := by
    rcases Nat.eq_zero_or_pos lg.length with h | h
    · rw [List.length_eq_zero.mp h] at hget
      simp at hget
    · exact h
  have h0 : (0 : Int) ≤ cu := by
    rw [hcur]
    omega
  rw [undo_eq _ c h0 hget]
  simp only [ModifyCommand.undo]
  have hg : cu - 1 < ((lg : List CmdId).length : Int) - 1 := by omega
  have hadd : cu - 1 + 1 = cu := by omega
  have hget2 : lg[(cu - 1 + 1).toNat]? = some c := by
    rw [hadd]
    exact hget
  rw [redo_eq _ c hg hget2]
  simp only [ModifyCommand.execute, Invoker.mk.injEq]
  refine ⟨?_, ?_, trivial, by omega⟩
  · funext t k
    by_cases htk : t = (cm c).config.receiver ∧ k = (cm c).config.modificationType
    · obtain ⟨ht, hk⟩ := htk
      subst ht
      subst hk
      simp [hval]
    · simp [htk]
  · funext c'
    by_cases hcc : c' = c
    · subst hcc
      simp
    · simp [hcc]

theorem execute_get_cursor (s : Invoker) (c : CmdId) :
    (Invoker.execute s c).executedCommands[(Invoker.execute s
        c).currentExecutionState.toNat]? = some c := by
  have htn : (Invoker.execute s c).currentExecutionState.toNat
      = (truncLog s).length := by
    rw [execute_cursor]
    simp
  rw [execute_log, htn, List.getElem?_append_right (le_refl _)]
  simp

theorem execute_value (s : Invoker) (c : CmdId) :
    (Invoker.execute s c).targets ((Invoker.execute s c).cmds c).config.receiver
        ((Invoker.execute s c).cmds c).config.modificationType
      = some (((Invoker.execute s c).cmds c).config.changedValue) := by
  rw [execute_cmds, execute_targets]
  simp

theorem roundTrip_execute (s : Invoker) (c : CmdId) :
    Invoker.redo (Invoker.undo (Invoker.execute s c)) = Invoker.execute s c :=
  redo_undo_of_tail (Invoker.execute s c) c (execute_cursor_last s c)
    (execute_get_cursor s c) (execute_value s c)

/-- Branch discard, relative to any state satisfying the cursor invariant:
after `execute o1; execute o2; undo; execute o3` the redo branch holding `o2`
is gone — `redo` is the identity and the log is the previously applied prefix
followed by `[o1, o3]`. -/
theorem branch_discard (s : Invoker) (o1 o2 o3 : CmdId) (h : Inv s) :
    Invoker.redo (run s [Action.exec o1, Action.exec o2, Action.undo,
        Action.exec o3])
      = run s [Action.exec o1, Action.exec o2, Action.undo, Action.exec o3] ∧
    (run s [Action.exec o1, Action.exec o2, Action.undo,
        Action.exec o3]).executedCommands
      = s.executedCommands.take (s.currentExecutionState + 1).toNat
          ++ [o1, o3] := by
  simp only [run, step]
  set s1 := Invoker.execute s o1 with hs1
  set s2 := Invoker.execute s1 o2 with hs2
  set s3 := Invoker.undo s2 with hs3
  set s4 := Invoker.execute s3 o3 with hs4
  have h1log : s1.executedCommands
      = s.executedCommands.take (s.currentExecutionState + 1).toNat ++ [o1] := by
    rw [hs1, execute_log, truncLog_of_inv s h]
  have h1cur := execute_cursor_last s o1
  have h2log : s2.executedCommands = s1.executedCommands ++ [o2] := by
    rw [hs2, execute_log, truncLog_of_tail s1 h1cur]
  have h2cur := execute_cursor_last s1 o2
  have h3log : s3.executedCommands = s2.executedCommands := undo_log s2
  have h2c : s2.currentExecutionState = (s1.executedCommands.length : Int) := by
    rw [h2cur, h2log]
    simp
  have h3cur : s3.currentExecutionState
      = (s1.executedCommands.length : Int) - 1 := by
    rw [hs3, undo_cursor s2 (by rw [h2c]; positivity), h2c]
  have hguard : (s3.executedCommands.length : Int) - 1
      > s3.currentExecutionState := by
    rw [h3log, h2log, h3cur]
    simp
  have h4log : s4.executedCommands = s1.executedCommands ++ [o3] := by
    rw [hs4, execute_log]
    unfold truncLog
    rw [if_pos hguard, h3cur, h3log, h2log]
    have htn : ((s1.executedCommands.length : Int) - 1 + 1).toNat
        = s1.executedCommands.length := by omega
    rw [htn, List.take_left]
  have h4cur := execute_cursor_last s3 o3
  constructor
  · apply redo_of_tail
    rw [h4cur]
    simp
  · rw [h4log, h1log, List.append_assoc]
    rfl

/-- The command object whose `execute`/`undo` method a trigger runs, if any:
the executed command for `execute`, the command at the cursor for a
non-boundary `undo`, the command after the cursor for a non-boundary
`redo`. -/
def activeCmd (s : Invoker) : Action → Option CmdId
  | Action.exec c => some c
  | Action.undo =>
      if 0 ≤ s.currentExecutionState then
        s.executedCommands[s.currentExecutionState.toNat]?
      else none
  | Action.redo =>
      if s.currentExecutionState < (s.executedCommands.length : Int) - 1 then
        s.executedCommands[(s.currentExecutionState + 1).toNat]?
      else none

/-- Frame property: a trigger whose active command does not have receiver `y`
leaves every field of target `y` untouched. -/
theorem step_targets_frame (s : Invoker) (a : Action) (y : TargetId)
    (h : ∀ c, activeCmd s a = some c → (s.cmds c).config.receiver ≠ y) :
    (step s a).targets y = s.targets y := by
  cases a with
  | exec c =>
    have hno : (y = (s.cmds c).config.receiver) = False :=
      eq_false (fun he => h c rfl he.symm)
    simp only [step]
    rw [execute_targets]
    funext k
    simp [hno]
  | undo =>
    by_cases h0 : 0 ≤ s.currentExecutionState
    · cases hc : s.executedCommands[s.currentExecutionState.toNat]? with
      | none => simp [step, Invoker.undo, h0, hc]
      | some c =>
        have hno : (y = (s.cmds c).config.receiver) = False :=
          eq_false (fun he => h c (by simp [activeCmd, h0, hc]) he.symm)
        simp only [step]
        rw [undo_eq s c h0 hc]
        funext k
        simp [ModifyCommand.undo, hno]
    · simp only [step]
      rw [undo_of_neg s (by omega)]
  | redo =>
    by_cases hg : s.currentExecutionState < (s.executedCommands.length : Int) - 1
    · cases hc : s.executedCommands[(s.currentExecutionState + 1).toNat]? with
      | none => simp [step, Invoker.redo, hg, hc]
      | some c =>
        have hno : (y = (s.cmds c).config.receiver) = False :=
          eq_false (fun he => h c (by simp [activeCmd, hg, hc]) he.symm)
        simp only [step]
        rw [redo_eq s c hg hc]
        funext k
        simp [ModifyCommand.execute, hno]
    · simp only [step]
      rw [redo_of_tail s hg]

/-- A concrete fresh invoker used for witnesses and counterexamples.
Target `0` has field `value = "A"`; target `1` has field `v = "A"`.
Command `0` sets target `0`'s `value` to `"B"`, command `1` sets it to `"C"`,
command `2` sets target `1`'s `v` to `"D"`, every other command sets target
`0`'s `value` to `"E"`.  No command has run yet, so every `previousValue` is
unset. -/
def demo : Invoker :=
  { targets := fun t k =>
      if t = 0 ∧ k = "value" then some "A"
      else if t = 1 ∧ k = "v" then some "A"
      else none,
    cmds := fun c =>
      if c = 0 then ⟨⟨0, "B", "value"⟩, none⟩
      else if c = 1 then ⟨⟨0, "C", "value"⟩, none⟩
      else if c = 2 then ⟨⟨1, "D", "v"⟩, none⟩
      else ⟨⟨0, "E", "value"⟩, none⟩,
    executedCommands := [],
    currentExecutionState := -1 }

/-- Claim C1, as stated, is false: from the reachable state produced by one
prior `execute(0)`, the call sequence `execute(1); execute(2); undo;
execute(3)` leaves the log `[0, 1, 3]`, not exactly `[1, 3]`. -/
theorem claim_C1_counterexample :
    Reachable (run demo [Action.exec 0]) ∧
    (run (run demo [Action.exec 0])
        [Action.exec 1, Action.exec 2, Action.undo,
         Action.exec 3]).executedCommands = [0, 1, 3] ∧
    ¬ (run (run demo [Action.exec 0])
        [Action.exec 1, Action.exec 2, Action.undo,
         Action.exec 3]).executedCommands = [1, 3] :=
  ⟨⟨demo, [Action.exec 0], ⟨rfl, rfl⟩, rfl⟩, by decide, by decide⟩

/-- Claim C1 (amended): from any reachable state, after `execute(o1);
execute(o2); undo; execute(o3)` a subsequent `redo` is a no-op (it changes
nothing at all), and the log is the applied prefix of the starting log
(entries `0..cursor`) followed by `[o1, o3]`; from a fresh invoker that
prefix is empty, so the log is exactly `[o1, o3]`. -/
theorem claim_C1 (s : Invoker) (o1 o2 o3 : CmdId) (h : Reachable s) :
    Invoker.redo (run s [Action.exec o1, Action.exec o2, Action.undo,
        Action.exec o3])
      = run s [Action.exec o1, Action.exec o2, Action.undo, Action.exec o3] ∧
    (run s [Action.exec o1, Action.exec o2, Action.undo,
        Action.exec o3]).executedCommands
      = s.executedCommands.take (s.currentExecutionState + 1).toNat
          ++ [o1, o3] :=
  branch_discard s o1 o2 o3 (Inv_of_reachable s h)

theorem claim_C1_witness :
    Invoker.redo (run demo [Action.exec 0, Action.exec 1, Action.undo,
        Action.exec 2])
      = run demo [Action.exec 0, Action.exec 1, Action.undo, Action.exec 2] ∧
    (run demo [Action.exec 0, Action.exec 1, Action.undo,
        Action.exec 2]).executedCommands
      = demo.executedCommands.take (demo.currentExecutionState + 1).toNat
          ++ [0, 2] :=
  claim_C1 demo 0 1 2 ⟨demo, [], ⟨rfl, rfl⟩, rfl⟩

/-- Claim C2, as stated, is false when the same `ModifyCommand` object occurs
twice in the sequence: executing command `0` twice and undoing twice leaves
target `0`'s `value` at `"B"`, not at its original `"A"`. -/
theorem claim_C2_counterexample :
    ¬ (undoN 2 (executeAll demo [0, 0])).targets 0 "value"
        = demo.targets 0 "value" := by decide

/-- Claim C2 (amended): for a fresh invoker and a sequence of `execute` calls
with pairwise-distinct `ModifyCommand` objects `o1..on`, calling `undo` n
times restores every target to its state before `o1`, field by field. -/
theorem claim_C2 (s : Invoker) (cs : List CmdId) (h0 : IsInitial s)
    (hnd : cs.Nodup) :
    (undoN cs.length (executeAll s cs)).targets = s.targets := by
  obtain ⟨h1, h2⟩ := h0
  refine (undo_restores cs s ?_ hnd).1
  rw [h2, h1]
  simp

theorem claim_C2_witness :
    (undoN ([0, 2] : List CmdId).length (executeAll demo [0, 2])).targets
      = demo.targets :=
  claim_C2 demo [0, 2] ⟨rfl, rfl⟩ (by decide)

/-- Claim C3: for every reachable state and operation, `execute(o); undo();
redo()` leaves the target field that `o` mutates in the same state as
immediately after `execute(o)` (in fact the whole state is restored). -/
theorem claim_C3 (s : Invoker) (c : CmdId) (_hr : Reachable s) :
    (Invoker.redo (Invoker.undo (Invoker.execute s c))).targets
        (s.cmds c).config.receiver (s.cmds c).config.modificationType
      = (Invoker.execute s c).targets
        (s.cmds c).config.receiver (s.cmds c).config.modificationType := by
  rw [roundTrip_execute]

theorem claim_C3_witness :
    (Invoker.redo (Invoker.undo (Invoker.execute demo 0))).targets 0 "value"
      = (Invoker.execute demo 0).targets 0 "value" :=
  claim_C3 demo 0 ⟨demo, [], ⟨rfl, rfl⟩, rfl⟩

/-- Claim C4: the cursor invariant `-1 <= cursor <= length(log) - 1` holds in
every reachable state (in particular in the initial state, which is reachable
by the empty call sequence) and is preserved by every `execute`, `undo`, and
`redo` call made from a reachable state. -/
theorem claim_C4 (s : Invoker) (h : Reachable s) :
    Inv s ∧ ∀ a : Action, Inv (step s a) :=
  ⟨Inv_of_reachable s h, fun a => Inv_step s a (Inv_of_reachable s h)⟩

theorem claim_C4_witness : Inv demo :=
  (claim_C4 demo ⟨demo, [], ⟨rfl, rfl⟩, rfl⟩).1

/-- Claim C5: under the cursor invariant, `execute(operation)` truncates the
log to the entries up to the cursor, appends the operation, sets the cursor to
the new last index, and applies the operation (capturing the target's current
field value into `previousValue` and writing `changedValue` into the field).
It is a total function: no error conditions. -/
theorem claim_C5 (s : Invoker) (c : CmdId) (h : Inv s) :
    (Invoker.execute s c).executedCommands
        = s.executedCommands.take (s.currentExecutionState + 1).toNat ++ [c] ∧
    (Invoker.execute s c).currentExecutionState
        = ((Invoker.execute s c).executedCommands.length : Int) - 1 ∧
    (Invoker.execute s c).targets = (fun t k =>
        if t = (s.cmds c).config.receiver ∧
            k = (s.cmds c).config.modificationType
        then some (s.cmds c).config.changedValue
        else s.targets t k) ∧
    (Invoker.execute s c).cmds = (fun c' =>
        if c' = c then
          ⟨(s.cmds c).config,
           s.targets (s.cmds c).config.receiver
             (s.cmds c).config.modificationType⟩
        else s.cmds c') := by
  refine ⟨?_, execute_cursor_last s c, execute_targets s c, execute_cmds s c⟩
  rw [execute_log, truncLog_of_inv s h]

theorem claim_C5_witness :
    (Invoker.execute demo 0).executedCommands
      = demo.executedCommands.take
          (demo.currentExecutionState + 1).toNat ++ [0] :=
  (claim_C5 demo 0 ⟨by decide, by decide⟩).1

/-- Claim C6: `undo()` with the cursor at `-1` and `redo()` with the cursor at
the last index are exact no-ops — the state (cursor, log, targets, commands)
is unchanged and nothing is thrown (the functions are total). -/
theorem claim_C6 (s : Invoker) :
    (s.currentExecutionState = -1 → Invoker.undo s = s) ∧
    (s.currentExecutionState = (s.executedCommands.length : Int) - 1 →
      Invoker.redo s = s) := by
  constructor
  · intro h
    exact undo_of_neg s (by omega)
  · intro h
    exact redo_of_tail s (by omega)

theorem claim_C6_witness :
    Invoker.undo demo = demo ∧ Invoker.redo demo = demo :=
  ⟨(claim_C6 demo).1 rfl, (claim_C6 demo).2 (by decide)⟩

/-- Claim C7, as stated, is false: calling `undo` (revert) on command `0`
before any `execute` does not leave target `0`'s `value` unchanged and does
not fail — it silently writes the unset `previousValue` (`undefined`) into
the field. -/
theorem claim_C7_counterexample :
    (ModifyCommand.undo demo 0).targets 0 "value" = none ∧
    ¬ (ModifyCommand.undo demo 0).targets 0 "value"
        = demo.targets 0 "value" := by decide

/-- Claim C7 (amended): calling revert (`ModifyCommand.undo`) before apply
(`ModifyCommand.execute`) has ever run silently writes the unset
`previousValue` (`undefined`) into `target[mutationKey]`; it neither no-ops
nor raises a `PreconditionError`. -/
theorem claim_C7 (s : Invoker) (c : CmdId)
    (h : (s.cmds c).previousValue = none) :
    (ModifyCommand.undo s c).targets (s.cmds c).config.receiver
        (s.cmds c).config.modificationType = none := by
  simp [ModifyCommand.undo, h]

theorem claim_C7_witness :
    (ModifyCommand.undo demo 0).targets 0 "value" = none :=
  claim_C7 demo 0 rfl

/-- Claim C8: apply always re-captures the target's current field value into
`previousValue` before writing `changedValue`; hence after two consecutive
applies (no revert in between) `previousValue` equals `changedValue`, and a
following revert leaves the field at `changedValue`, not at the original
value (whenever `changedValue` differs from it). -/
theorem claim_C8 (s : Invoker) (c : CmdId)
    (hne : ¬ some (s.cmds c).config.changedValue
        = s.targets (s.cmds c).config.receiver
            (s.cmds c).config.modificationType) :
    ((ModifyCommand.execute s c).cmds c).previousValue
        = s.targets (s.cmds c).config.receiver
            (s.cmds c).config.modificationType ∧
    (ModifyCommand.execute s c).targets (s.cmds c).config.receiver
        (s.cmds c).config.modificationType
        = some (s.cmds c).config.changedValue ∧
    ((ModifyCommand.execute (ModifyCommand.execute s c) c).cmds
        c).previousValue = some (s.cmds c).config.changedValue ∧
    (ModifyCommand.undo (ModifyCommand.execute
        (ModifyCommand.execute s c) c) c).targets
        (s.cmds c).config.receiver (s.cmds c).config.modificationType
        = some (s.cmds c).config.changedValue ∧
    ¬ (ModifyCommand.undo (ModifyCommand.execute
        (ModifyCommand.execute s c) c) c).targets
        (s.cmds c).config.receiver (s.cmds c).config.modificationType
        = s.targets (s.cmds c).config.receiver
            (s.cmds c).config.modificationType := by
  refine ⟨?_, ?_, ?_, ?_, ?_⟩ <;>
    simp [ModifyCommand.execute, ModifyCommand.undo, hne]

theorem claim_C8_witness :
    ¬ (ModifyCommand.undo (ModifyCommand.execute
        (ModifyCommand.execute demo 0) 0) 0).targets 0 "value"
        = demo.targets 0 "value" :=
  (claim_C8 demo 0 (by decide)).2.2.2.2

/-- Claim C9, as stated, is false in its "projection" half: with the
Y-command `2` (target `1`) and the X-command `0` (target `0`), the sequence
`execute(2); execute(0); undo()` leaves target `1`'s field `v` at `"D"`,
while running only the Y-operations of the sequence (`execute(2); undo()`)
leaves it at `"A"` — interleaved X-operations shift which command `undo`
reverts. -/
theorem claim_C9_counterexample :
    (run demo [Action.exec 2, Action.exec 0, Action.undo]).targets 1 "v"
        = some "D" ∧
    (run demo [Action.exec 2, Action.undo]).targets 1 "v" = some "A" ∧
    ¬ (run demo [Action.exec 2, Action.exec 0, Action.undo]).targets 1 "v"
        = (run demo [Action.exec 2, Action.undo]).targets 1 "v" := by
  refine ⟨by decide, by decide, by decide⟩

/-- Claim C9 (amended): target independence holds as a frame property — any
`execute`/`undo`/`redo` call whose active command (the one whose apply or
revert it runs) is not constructed with target `y` leaves every field of `y`
unchanged; operations on target X never read or write target Y's fields. -/
theorem claim_C9 (s : Invoker) (a : Action) (y : TargetId)
    (h : ∀ c, activeCmd s a = some c → ¬ (s.cmds c).config.receiver = y) :
    (step s a).targets y = s.targets y :=
  step_targets_frame s a y h

theorem claim_C9_witness :
    (step demo (Action.exec 0)).targets 1 = demo.targets 1 :=
  claim_C9 demo (Action.exec 0) 1 (by
    intro c hc
    injection hc with h1
    subst h1
    decide)

/-- Claim C10: `undo` and `redo` never modify the log — same length, same
entries, same order; `undo` leaves every command object untouched, and the
only command-object field `redo` can change is `previousValue` (every
command's config is preserved). -/
theorem claim_C10 (s : Invoker) :
    (Invoker.undo s).executedCommands = s.executedCommands ∧
    (Invoker.redo s).executedCommands = s.executedCommands ∧
    (Invoker.undo s).cmds = s.cmds ∧
    ∀ c : CmdId, ((Invoker.redo s).cmds c).config = (s.cmds c).config :=
  ⟨undo_log s, redo_log s, undo_cmds s, fun c => redo_cmds_config s c⟩

end CommandDP
